import Mathlib

/-!
Verification development for the `phosphorus` enum-table core
(`src/xml/gl/enums.rs`).

The Rust source is shallowly embedded:
* machine integers become `Nat`/`Int` with explicit range checks where the
  source's fixed-width parsing enforces them;
* the `HashMap<EnumKey, EnumValue>` becomes an association list (the source
  only ever inserts keys that are absent, so lookup semantics agree);
* the `HashSet<String>` group accumulator becomes a duplicate-free list;
* fallible paths become `Except`: every `panic!` / `.unwrap()` of the source
  maps to a dedicated error constructor, and the `Option`-propagation of
  `it.next()?` (stream exhausted) maps to `unexpectedEndOfInput`.
-/

set_option autoImplicit false

/-- Key used to look up an enum: name plus optional api restriction
(mirrors `struct EnumKey` in the source). -/
structure EnumKey where
  name : String
  api : Option String
deriving DecidableEq

/-- Value variations an enum name can take (mirrors `enum EnumValue`):
`Enum`/`Bitmask` carry a 32-bit payload (kept as `Nat < 2^32` by the
parsers), `ULL` a 64-bit payload. -/
inductive EnumValue where
  | Enum (n : Nat)
  | Bitmask (n : Nat)
  | ULL (n : Nat)
deriving DecidableEq

/-- Errors of the embedded folder.  `unexpectedEndOfInput` models the `None`
returned when `it.next()?` finds the stream exhausted; every other
constructor models one of the source's `panic!`/`unwrap` sites. -/
inductive PullError where
  | unexpectedEndOfInput
  | unexpectedTag
  | unrecognizedAttribute (k : String)
  | missingAttribute
  | malformedNumber (s : String)
  | sliceOutOfBounds (s : String)
  | conflictingRedefinition (key : EnumKey) (old new : EnumValue)
deriving DecidableEq

/-- Classifies which error constructors model a source `panic!`/`unwrap`
(true) as opposed to the folder's non-panicking `None` return on stream
exhaustion (false). -/
def isPanicModeled : PullError → Bool
  | PullError.unexpectedEndOfInput => false
  | _ => true

deriving instance DecidableEq for Except

/-- The enum table (mirrors `struct Enums(HashMap<EnumKey, EnumValue>)`). -/
abbrev Enums := List (EnumKey × EnumValue)

/-- The group accumulator (mirrors `HashSet<String>`). -/
abbrev EnumGroup := List String

/-- Lookup in the table (mirrors `HashMap::get`). -/
def Enums.find? : Enums → EnumKey → Option EnumValue
  | [], _ => none
  | (k, v) :: rest, key => if key = k then some v else Enums.find? rest key

/-- Set insertion (mirrors `HashSet::insert`): no duplicates are created. -/
def enumGroupInsert (g : EnumGroup) (s : String) : EnumGroup :=
  if s ∈ g then g else s :: g

/-- Character membership in a character list. -/
def listContainsChar : List Char → Char → Bool
  | [], _ => false
  | a :: rest, c => if a = c then true else listContainsChar rest c

/-- Rust `str::contains(char)`. -/
def strContainsChar (s : String) (c : Char) : Bool :=
  listContainsChar s.data c

/-- Digit value of a character under a radix, as in Rust's
`char::to_digit(radix)` used by `from_str_radix`. -/
def charDigit? (radix : Nat) (c : Char) : Option Nat :=
  let d? : Option Nat :=
    if '0' ≤ c ∧ c ≤ '9' then some (c.toNat - 48)
    else if 'a' ≤ c ∧ c ≤ 'z' then some (c.toNat - 87)
    else if 'A' ≤ c ∧ c ≤ 'Z' then some (c.toNat - 55)
    else none
  match d? with
  | some d => if d < radix then some d else none
  | none => none

/-- Accumulating digit parse; fails on the first invalid digit. -/
def parseDigitsAux (radix : Nat) : List Char → Nat → Option Nat
  | [], acc => some acc
  | c :: rest, acc =>
    match charDigit? radix c with
    | some d => parseDigitsAux radix rest (acc * radix + d)
    | none => none

/-- Parse a non-empty run of digits under `radix`
(the digit part of Rust's `from_str_radix`). -/
def parseDigits (radix : Nat) (cs : List Char) : Option Nat :=
  match cs with
  | [] => none
  | _ => parseDigitsAux radix cs 0

/-- Rust's `from_str_radix` accepts one optional leading plus sign. -/
def stripPlus : List Char → List Char
  | [] => []
  | c :: t => if c = '+' then t else c :: t

/-- Rust `uN::from_str_radix`: optional leading plus, digits, value must fit
in `width` bits. -/
def fromStrRadixU (width radix : Nat) (s : String) : Option Nat :=
  match parseDigits radix (stripPlus s.data) with
  | some n => if n < 2 ^ width then some n else none
  | none => none

/-- Rust `i32::from_str_radix`: optional sign, digits, value must lie in
the `i32` range. -/
def fromStrRadixI32 (radix : Nat) (s : String) : Option Int :=
  match s.data with
  | [] => none
  | c :: t =>
    if c = '-' then
      match parseDigits radix t with
      | some n => if (n : Int) ≤ 2 ^ 31 then some (-(n : Int)) else none
      | none => none
    else
      match parseDigits radix (stripPlus (c :: t)) with
      | some n => if n < 2 ^ 31 then some ((n : Int)) else none
      | none => none

/-- Rust's `as u32` reinterpretation of an `i32`: the two's-complement bit
pattern, i.e. the value modulo `2^32`. -/
def i32AsU32 (i : Int) : Nat := (i % (2 ^ 32 : Int)).toNat

/-- Rust byte slice `&s[2..]`: drops the first two characters, panics
(`none`) if the text is shorter (names and values here are ASCII, so byte
and character indices agree). -/
def strDrop2 (s : String) : Option String :=
  if s.data.length < 2 then none else some (String.mk (s.data.drop 2))

/-- Value resolution, mirroring the `let val: EnumValue = if is_ull {...}`
cascade of `pull_enums`: wide values parse `value[2..]` base-16 into 64
bits; text containing `x`/`X` parses `value[2..]` base-16 into 32 bits;
text containing a minus sign parses via `i32::from_str_radix(&value, 16)`
(base 16, as in the source) and reinterprets `as u32`; everything else is
base-10 unsigned.  Each failed `unwrap` is a `malformedNumber` error; a
failing `[2..]` slice is `sliceOutOfBounds`. -/
def resolveValue (value : String) (is_ull is_bitmask : Bool) :
    Except PullError EnumValue :=
  if is_ull then
    match strDrop2 value with
    | none => Except.error (PullError.sliceOutOfBounds value)
    | some rest =>
      match fromStrRadixU 64 16 rest with
      | some n => Except.ok (EnumValue.ULL n)
      | none => Except.error (PullError.malformedNumber value)
  else if strContainsChar value 'x' || strContainsChar value 'X' then
    match strDrop2 value with
    | none => Except.error (PullError.sliceOutOfBounds value)
    | some rest =>
      match fromStrRadixU 32 16 rest with
      | some n =>
        Except.ok (if is_bitmask then EnumValue.Bitmask n else EnumValue.Enum n)
      | none => Except.error (PullError.malformedNumber value)
  else if strContainsChar value '-' then
    match fromStrRadixI32 16 value with
    | some i =>
      Except.ok
        (if is_bitmask then EnumValue.Bitmask (i32AsU32 i)
         else EnumValue.Enum (i32AsU32 i))
    | none => Except.error (PullError.malformedNumber value)
  else
    match fromStrRadixU 32 10 value with
    | some n =>
      Except.ok (if is_bitmask then EnumValue.Bitmask n else EnumValue.Enum n)
    | none => Except.error (PullError.malformedNumber value)

/-- Accumulated attribute state of one `<enum .../>` tag, mirroring the
mutable locals `name`, `value`, `api`, `is_ull` of `pull_enums`. -/
structure AttrState where
  name : Option String
  value : Option String
  api : Option String
  is_ull : Bool
deriving DecidableEq

/-- Initial attribute state (`None`/`None`/`None`/`false`). -/
def initAttrState : AttrState :=
  { name := none, value := none, api := none, is_ull := false }

/-- One iteration of the `for (k, v) in AttributeIterator::new(attrs)` loop:
recognized keys overwrite the corresponding local, `alias`/`comment` are
ignored, anything else panics (`unrecognizedAttribute`). -/
def collectStep (st : AttrState) (kv : String × String) :
    Except PullError AttrState :=
  if kv.1 = "name" then Except.ok { st with name := some kv.2 }
  else if kv.1 = "value" then Except.ok { st with value := some kv.2 }
  else if kv.1 = "alias" then Except.ok st
  else if kv.1 = "comment" then Except.ok st
  else if kv.1 = "type" then Except.ok { st with is_ull := kv.2 = "ull" }
  else if kv.1 = "api" then Except.ok { st with api := some kv.2 }
  else Except.error (PullError.unrecognizedAttribute kv.1)

/-- Left-to-right fold of `collectStep` over the attribute pairs. -/
def collectAttrsFrom (st : AttrState) :
    List (String × String) → Except PullError AttrState
  | [] => Except.ok st
  | kv :: rest =>
    match collectStep st kv with
    | Except.ok st2 => collectAttrsFrom st2 rest
    | Except.error e => Except.error e

/-- Attribute collection for one entry, from the initial state. -/
def collectAttrs (attrs : List (String × String)) :
    Except PullError AttrState :=
  collectAttrsFrom initAttrState attrs

/-- Last occurrence's text for attribute key `k` in an ordered attribute
list (`none` when `k` never occurs): the reference point for stating the
last-seen-wins resolution of duplicate keys. -/
def lastAttr (k : String) : List (String × String) → Option String
  | [] => none
  | kv :: rest => (lastAttr k rest).or (if kv.1 = k then some kv.2 else none)

/-- Resolution of one entry up to (but not including) the table update:
collect attributes, `unwrap` the required `name` and `value`
(`missingAttribute` on panic), resolve the value, build the key. -/
def resolveEntry (attrs : List (String × String)) (is_bitmask : Bool) :
    Except PullError (EnumKey × EnumValue) :=
  match collectAttrs attrs with
  | Except.error e => Except.error e
  | Except.ok st =>
    match st.name with
    | none => Except.error PullError.missingAttribute
    | some name =>
      match st.value with
      | none => Except.error PullError.missingAttribute
      | some value =>
        match resolveValue value st.is_ull is_bitmask with
        | Except.error e => Except.error e
        | Except.ok val => Except.ok ({ name := name, api := st.api }, val)

/-- Table update for one resolved entry, mirroring the
`if enums.0.contains_key(&key) { ... } else { ... }` block: an existing
equal value is skipped, an existing different value panics
(`conflictingRedefinition` carrying key, old and new), and a fresh key is
inserted into the table and, when a group accumulator is supplied, its
name into the group. -/
def processEnum (attrs : List (String × String)) (is_bitmask : Bool)
    (enums : Enums) (group : Option EnumGroup) :
    Except PullError (Enums × Option EnumGroup) :=
  match resolveEntry attrs is_bitmask with
  | Except.error e => Except.error e
  | Except.ok (key, val) =>
    match Enums.find? enums key with
    | some old =>
      if old = val then Except.ok (enums, group)
      else Except.error (PullError.conflictingRedefinition key old val)
    | none =>
      Except.ok ((key, val) :: enums,
        Option.map (fun g => enumGroupInsert g key.name) group)

/-- Events of the excluded tokenizer, as consumed by `pull_enums`:
`EndTag`, `EmptyTag` (self-closing tag with attribute pairs), and
`StartTag` standing for any other event shape the source's
`other => panic!` arm rejects. -/
inductive XmlEvent where
  | EndTag (name : String)
  | EmptyTag (name : String) (attrs : List (String × String))
  | StartTag (name : String) (attrs : List (String × String))
deriving DecidableEq

/-- The scope folder `pull_enums`: walks the event stream until
`EndTag "enums"`, processing each `EmptyTag "enum"` entry, ignoring
`EmptyTag "unused"`, failing on any other shape (`unexpectedTag`, a
source panic), and failing with `unexpectedEndOfInput` when the stream is
exhausted first (the source's `it.next()?` returning `None`). -/
def pull_enums :
    List XmlEvent → Enums → Bool → Option EnumGroup →
    Except PullError (Enums × Option EnumGroup)
  | [], _, _, _ => Except.error PullError.unexpectedEndOfInput
  | ev :: rest, enums, is_bitmask, group =>
    match ev with
    | XmlEvent.EndTag n =>
      if n = "enums" then Except.ok (enums, group)
      else Except.error PullError.unexpectedTag
    | XmlEvent.EmptyTag n attrs =>
      if n = "enum" then
        match processEnum attrs is_bitmask enums group with
        | Except.ok (e2, g2) => pull_enums rest e2 is_bitmask g2
        | Except.error e => Except.error e
      else if n = "unused" then pull_enums rest enums is_bitmask group
      else Except.error PullError.unexpectedTag
    | XmlEvent.StartTag _ _ => Except.error PullError.unexpectedTag

/-- Uppercase hexadecimal digit character. -/
def hexDigit (n : Nat) : Char :=
  if n < 10 then Char.ofNat (48 + n) else Char.ofNat (55 + n)

/-- Fueled most-significant-first hex digit accumulation; the fuel
`n + 1` always suffices since a number has at most `n + 1` hex digits. -/
def toHexAux : Nat → Nat → List Char → List Char
  | 0, _, acc => acc
  | Nat.succ fuel, n, acc =>
    if n < 16 then hexDigit n :: acc
    else toHexAux fuel (n / 16) (hexDigit (n % 16) :: acc)

/-- Rust's `{:X}` format: uppercase hex, no padding, "0" for zero. -/
def toHexUpper (n : Nat) : String :=
  String.mk (toHexAux (n + 1) n [])

/-- Rust's `{:08X}` format: uppercase hex left-padded with zeros to at
least eight digits. -/
def padHex8 (n : Nat) : String :=
  String.mk (List.replicate (8 - (toHexAux (n + 1) n []).length) '0'
    ++ toHexAux (n + 1) n [])

/-- Failure of the embedded renderer.  `sliceOutOfBounds` models the Rust
index panic of `&self.key.name[3..]` on a name shorter than the prefix;
`nameTooShort` is the explicit rejection the specification names
(`NameTooShortForPrefix`) — the embedded source never produces it. -/
inductive RenderError where
  | nameTooShort
  | sliceOutOfBounds
deriving DecidableEq

/-- The renderer `impl Display for EnumDisplay`: with the alternate
(strip) flag the `GL_` prefix is cut via the slice `&name[3..]` (which
panics on shorter names), then the value renders as `pub const ...` with
`{:X}` for `Enum`, `{:08X}` for `Bitmask`, and `{:X}` with a `u64` type
for `ULL`. -/
def EnumDisplay.fmt (key : EnumKey) (value : EnumValue) (alternate : Bool) :
    Except RenderError String :=
  let nameRes : Except RenderError String :=
    if alternate then
      if key.name.data.length < 3 then Except.error RenderError.sliceOutOfBounds
      else Except.ok (String.mk (key.name.data.drop 3))
    else Except.ok key.name
  match nameRes with
  | Except.error e => Except.error e
  | Except.ok the_name =>
    match value with
    | EnumValue.Enum num =>
      Except.ok ("pub const " ++ the_name ++ ": GLenum = 0x"
        ++ toHexUpper num ++ ";")
    | EnumValue.Bitmask mask =>
      Except.ok ("pub const " ++ the_name ++ ": GLbitfield = 0x"
        ++ padHex8 mask ++ ";")
    | EnumValue.ULL ull =>
      Except.ok ("pub const " ++ the_name ++ ": u64 = 0x"
        ++ toHexUpper ull ++ ";")

/-! ## Basic unfolding lemmas -/

theorem find?_cons (k0 : EnumKey) (v0 : EnumValue) (e : Enums) (k : EnumKey) :
    Enums.find? ((k0, v0) :: e) k =
      if k = k0 then some v0 else Enums.find? e k := rfl

theorem listContainsChar_nil (c : Char) : listContainsChar [] c = false := rfl

theorem listContainsChar_cons (a : Char) (rest : List Char) (c : Char) :
    listContainsChar (a :: rest) c =
      if a = c then true else listContainsChar rest c := rfl

theorem pull_enums_nil (e : Enums) (b : Bool) (gr : Option EnumGroup) :
    pull_enums [] e b gr = Except.error PullError.unexpectedEndOfInput := rfl

theorem pull_enums_endTag (n : String) (rest : List XmlEvent) (e : Enums)
    (b : Bool) (gr : Option EnumGroup) :
    pull_enums (XmlEvent.EndTag n :: rest) e b gr =
      if n = "enums" then Except.ok (e, gr)
      else Except.error PullError.unexpectedTag := rfl

theorem pull_enums_emptyTag (n : String) (attrs : List (String × String))
    (rest : List XmlEvent) (e : Enums) (b : Bool) (gr : Option EnumGroup) :
    pull_enums (XmlEvent.EmptyTag n attrs :: rest) e b gr =
      if n = "enum" then
        match processEnum attrs b e gr with
        | Except.ok (e2, g2) => pull_enums rest e2 b g2
        | Except.error err => Except.error err
      else if n = "unused" then pull_enums rest e b gr
      else Except.error PullError.unexpectedTag := rfl

theorem pull_enums_startTag (n : String) (attrs : List (String × String))
    (rest : List XmlEvent) (e : Enums) (b : Bool) (gr : Option EnumGroup) :
    pull_enums (XmlEvent.StartTag n attrs :: rest) e b gr =
      Except.error PullError.unexpectedTag := rfl

/-! ## Claim theorems -/

/-- Claim C1: an entry resolving to key `k` and value `vB` while the table
already maps `k` to a different `vA` fails — both at the single-entry level
and surfaced as the result of the whole scope fold — with
`conflictingRedefinition` carrying `k`, `vA` and `vB`, and the caller's
table (unchanged, since the error carries no updated table) still maps `k`
to `vA`: no silent overwrite happens. -/
theorem claim_C1 (attrs : List (String × String)) (b : Bool) (e : Enums)
    (gr : Option EnumGroup) (rest : List XmlEvent) (k : EnumKey)
    (vA vB : EnumValue)
    (hres : resolveEntry attrs b = Except.ok (k, vB))
    (hold : Enums.find? e k = some vA)
    (hne : vA ≠ vB) :
    processEnum attrs b e gr =
      Except.error (PullError.conflictingRedefinition k vA vB) ∧
    pull_enums (XmlEvent.EmptyTag "enum" attrs :: rest) e b gr =
      Except.error (PullError.conflictingRedefinition k vA vB) ∧
    Enums.find? e k = some vA := by
  have hp : processEnum attrs b e gr =
      Except.error (PullError.conflictingRedefinition k vA vB) := by
    simp [processEnum, hres, hold, hne]
  refine ⟨hp, ?_, hold⟩
  rw [pull_enums_emptyTag, if_pos rfl, hp]

/-- Witness for C1 at a concrete conflicting redefinition. -/
theorem claim_C1_w :
    processEnum [("name", "GL_B"), ("value", "2")] false
        [({ name := "GL_B", api := none }, EnumValue.Enum 3)] none =
      Except.error (PullError.conflictingRedefinition
        { name := "GL_B", api := none } (EnumValue.Enum 3) (EnumValue.Enum 2)) ∧
    pull_enums
        [XmlEvent.EmptyTag "enum" [("name", "GL_B"), ("value", "2")]]
        [({ name := "GL_B", api := none }, EnumValue.Enum 3)] false none =
      Except.error (PullError.conflictingRedefinition
        { name := "GL_B", api := none } (EnumValue.Enum 3) (EnumValue.Enum 2)) ∧
    Enums.find? [({ name := "GL_B", api := none }, EnumValue.Enum 3)]
        { name := "GL_B", api := none } = some (EnumValue.Enum 3) :=
  claim_C1 [("name", "GL_B"), ("value", "2")] false
    [({ name := "GL_B", api := none }, EnumValue.Enum 3)] none []
    { name := "GL_B", api := none } (EnumValue.Enum 3) (EnumValue.Enum 2)
    (by rfl) (by rfl) (by decide)

/-- Claim C2: an entry whose key is already mapped to exactly the value it
resolves to is an idempotent skip — the table and the group accumulator are
returned unchanged and no `conflictingRedefinition` (or any other error)
is raised. -/
theorem claim_C2 (attrs : List (String × String)) (b : Bool) (e : Enums)
    (gr : Option EnumGroup) (k : EnumKey) (v : EnumValue)
    (hres : resolveEntry attrs b = Except.ok (k, v))
    (hold : Enums.find? e k = some v) :
    processEnum attrs b e gr = Except.ok (e, gr) := by
  simp [processEnum, hres, hold]

/-- Witness for C2 at a concrete identical re-declaration. -/
theorem claim_C2_w :
    processEnum [("name", "GL_B"), ("value", "3")] false
        [({ name := "GL_B", api := none }, EnumValue.Enum 3)] (some []) =
      Except.ok ([({ name := "GL_B", api := none }, EnumValue.Enum 3)],
        some []) :=
  claim_C2 [("name", "GL_B"), ("value", "3")] false
    [({ name := "GL_B", api := none }, EnumValue.Enum 3)] (some [])
    { name := "GL_B", api := none } (EnumValue.Enum 3)
    (by rfl) (by rfl)

/-- Claim C6: the three rendering scenarios — `GL_TRIANGLES`/`Enum 0x4`
with strip gives identifier `TRIANGLES` and unpadded `0x4`;
`GL_DEPTH_BUFFER_BIT`/`Bitmask 0x00000100` with strip gives the
zero-padded eight-digit `0x00000100`; a 64-bit `ULL` value renders its hex
digits with the `u64` type annotation. -/
theorem claim_C6 :
    EnumDisplay.fmt { name := "GL_TRIANGLES", api := none }
        (EnumValue.Enum 4) true =
      Except.ok "pub const TRIANGLES: GLenum = 0x4;" ∧
    EnumDisplay.fmt { name := "GL_DEPTH_BUFFER_BIT", api := none }
        (EnumValue.Bitmask 256) true =
      Except.ok "pub const DEPTH_BUFFER_BIT: GLbitfield = 0x00000100;" ∧
    EnumDisplay.fmt { name := "GL_TIMEOUT_IGNORED", api := none }
        (EnumValue.ULL 9223372036854775808) true =
      Except.ok "pub const TIMEOUT_IGNORED: u64 = 0x8000000000000000;" := by
  refine ⟨?_, ?_, ?_⟩ <;> rfl

/-- Claim C7: a stream exhausted before the closing `enums` tag makes the
folder fail with `unexpectedEndOfInput` — for every intermediate table,
flag and group state — which is neither a success nor any of the
panic-modeled errors. -/
theorem claim_C7 (e : Enums) (b : Bool) (gr : Option EnumGroup) :
    pull_enums [] e b gr = Except.error PullError.unexpectedEndOfInput ∧
    (∀ r : Enums × Option EnumGroup, pull_enums [] e b gr ≠ Except.ok r) ∧
    (∀ err : PullError, isPanicModeled err = true →
      pull_enums [] e b gr ≠ Except.error err) := by
  refine ⟨rfl, ?_, ?_⟩
  · intro r h
    rw [pull_enums_nil] at h
    exact Except.noConfusion h
  · intro err hpanic h
    rw [pull_enums_nil] at h
    injection h with h2
    rw [← h2] at hpanic
    simp [isPanicModeled] at hpanic

/-- Witness for C7: the exhausted stream's failure is not the
`unexpectedTag` panic. -/
theorem claim_C7_w :
    pull_enums [] ([] : Enums) false none ≠
      Except.error PullError.unexpectedTag :=
  (claim_C7 [] false none).2.2 PullError.unexpectedTag rfl

/-- Counterexample to C9: rendering the two-character name `GL` with the
strip flag is the modeled out-of-bounds slice panic of `&name[3..]`, not
the explicit `nameTooShort` rejection the claim requires. -/
theorem claim_C9_cex :
    EnumDisplay.fmt { name := "GL", api := none } (EnumValue.Enum 1) true =
      Except.error RenderError.sliceOutOfBounds ∧
    RenderError.sliceOutOfBounds ≠ RenderError.nameTooShort := by
  exact ⟨by rfl, by decide⟩

/-- Claim C9 as amended: rendering any key whose name is shorter than the
three-character prefix with the strip flag set always fails with the
unguarded out-of-bounds slice (the source's index panic) — it never
silently truncates (no `Except.ok` is produced) — but the failure is the
slice panic, not an explicit `nameTooShort` rejection. -/
theorem claim_C9 (key : EnumKey) (value : EnumValue)
    (h : key.name.data.length < 3) :
    EnumDisplay.fmt key value true =
      Except.error RenderError.sliceOutOfBounds := by
  have h2 : key.name.length < 3 := h
  simp [EnumDisplay.fmt, h, h2]

/-- Witness for amended C9 at a one-character name. -/
theorem claim_C9_w :
    EnumDisplay.fmt { name := "A", api := none } (EnumValue.Bitmask 5) true =
      Except.error RenderError.sliceOutOfBounds :=
  claim_C9 { name := "A", api := none } (EnumValue.Bitmask 5) (by decide)

theorem collectAttrsFrom_nil (st : AttrState) :
    collectAttrsFrom st [] = Except.ok st := rfl

theorem collectAttrsFrom_cons (st : AttrState) (kv : String × String)
    (rest : List (String × String)) :
    collectAttrsFrom st (kv :: rest) =
      match collectStep st kv with
      | Except.ok st2 => collectAttrsFrom st2 rest
      | Except.error e => Except.error e := rfl

theorem lastAttr_nil (k : String) : lastAttr k [] = none := rfl

theorem lastAttr_cons (k : String) (kv : String × String)
    (rest : List (String × String)) :
    lastAttr k (kv :: rest) =
      (lastAttr k rest).or (if kv.1 = k then some kv.2 else none) := rfl

/-- Re-association of an overridden optional attribute under `Option.or`. -/
theorem optionOrIte (A : Option String) (c : Prop) [Decidable c] (v : String)
    (d : Option String) :
    (A.or (if c then some v else none)).or d =
      A.or (if c then some v else d) := by
  cases A with
  | some a => rfl
  | none =>
    by_cases hc : c
    · rw [if_pos hc, if_pos hc]
      rfl
    · rw [if_neg hc, if_neg hc]
      rfl

/-- Re-association of the overridden `type` marker under `Option.or`. -/
theorem matchLastOrUll (A : Option String) (c : Prop) [Decidable c]
    (v : String) (d : Bool) :
    (match A.or (if c then some v else none) with
     | some w => decide (w = "ull")
     | none => d) =
    (match A with
     | some w => decide (w = "ull")
     | none => if c then decide (v = "ull") else d) := by
  cases A with
  | some a => rfl
  | none =>
    by_cases hc : c
    · rw [if_pos hc, if_pos hc]
      rfl
    · rw [if_neg hc, if_neg hc]
      rfl

/-- One collection step overwrites exactly the stored attribute matching
the pair's key (by plain assignment, as in the source loop) and leaves
the other stored attributes alone. -/
theorem collectStep_ok_char (st st1 : AttrState) (kv : String × String)
    (h : collectStep st kv = Except.ok st1) :
    st1.name = (if kv.1 = "name" then some kv.2 else st.name) ∧
    st1.value = (if kv.1 = "value" then some kv.2 else st.value) ∧
    st1.api = (if kv.1 = "api" then some kv.2 else st.api) ∧
    st1.is_ull = (if kv.1 = "type" then decide (kv.2 = "ull")
      else st.is_ull) := by
  unfold collectStep at h
  by_cases h1 : kv.1 = "name"
  · rw [if_pos h1] at h
    injection h with h2
    subst h2
    rw [h1]
    refine ⟨?_, ?_, ?_, ?_⟩ <;>
      first
        | rw [if_pos rfl]
        | rw [if_neg (by decide)]
  · rw [if_neg h1] at h
    by_cases h2 : kv.1 = "value"
    · rw [if_pos h2] at h
      injection h with h3
      subst h3
      rw [h2]
      refine ⟨?_, ?_, ?_, ?_⟩ <;>
        first
          | rw [if_pos rfl]
          | rw [if_neg (by decide)]
    · rw [if_neg h2] at h
      by_cases h3 : kv.1 = "alias"
      · rw [if_pos h3] at h
        injection h with h4
        subst h4
        rw [h3]
        refine ⟨?_, ?_, ?_, ?_⟩ <;> rw [if_neg (by decide)]
      · rw [if_neg h3] at h
        by_cases h4 : kv.1 = "comment"
        · rw [if_pos h4] at h
          injection h with h5
          subst h5
          rw [h4]
          refine ⟨?_, ?_, ?_, ?_⟩ <;> rw [if_neg (by decide)]
        · rw [if_neg h4] at h
          by_cases h5 : kv.1 = "type"
          · rw [if_pos h5] at h
            injection h with h6
            subst h6
            rw [h5]
            refine ⟨?_, ?_, ?_, ?_⟩ <;>
              first
                | rw [if_pos rfl]
                | rw [if_neg (by decide)]
          · rw [if_neg h5] at h
            by_cases h6 : kv.1 = "api"
            · rw [if_pos h6] at h
              injection h with h7
              subst h7
              rw [h6]
              refine ⟨?_, ?_, ?_, ?_⟩ <;>
                first
                  | rw [if_pos rfl]
                  | rw [if_neg (by decide)]
            · rw [if_neg h6] at h
              exact Except.noConfusion h

/-- A successful collection run from any start state leaves each stored
attribute at its last occurrence in the list, falling back to the start
state's entry when the key never occurs. -/
theorem collectAttrsFrom_char (l : List (String × String)) :
    ∀ (st st2 : AttrState),
      collectAttrsFrom st l = Except.ok st2 →
      st2.name = (lastAttr "name" l).or st.name ∧
      st2.value = (lastAttr "value" l).or st.value ∧
      st2.api = (lastAttr "api" l).or st.api ∧
      st2.is_ull = (match lastAttr "type" l with
                    | some v => decide (v = "ull")
                    | none => st.is_ull) := by
  induction l with
  | nil =>
    intro st st2 h
    rw [collectAttrsFrom_nil] at h
    injection h with h2
    subst h2
    exact ⟨rfl, rfl, rfl, rfl⟩
  | cons kv rest ih =>
    intro st st2 h
    rw [collectAttrsFrom_cons] at h
    cases hcs : collectStep st kv with
    | error e =>
      simp only [hcs] at h
      exact Except.noConfusion h
    | ok st1 =>
      simp only [hcs] at h
      obtain ⟨hn, hv, ha, hu⟩ := ih st1 st2 h
      obtain ⟨sn, sv, sa, su⟩ := collectStep_ok_char st st1 kv hcs
      refine ⟨?_, ?_, ?_, ?_⟩
      · rw [hn, sn, lastAttr_cons, optionOrIte]
      · rw [hv, sv, lastAttr_cons, optionOrIte]
      · rw [ha, sa, lastAttr_cons, optionOrIte]
      · rw [hu, su, lastAttr_cons, matchLastOrUll]

/-- Counterexample to C8: with the attribute list
`name=GL_A, value=1, value=2` the value ultimately used is the *last*
occurrence's text `2`, not the first occurrence's `1` as the claim
states. -/
theorem claim_C8_cex :
    resolveEntry [("name", "GL_A"), ("value", "1"), ("value", "2")] false =
      Except.ok ({ name := "GL_A", api := none }, EnumValue.Enum 2) ∧
    EnumValue.Enum 2 ≠ EnumValue.Enum 1 :=
  ⟨by rfl, by decide⟩

/-- Claim C8 as amended: duplicate attribute keys are resolved
last-seen-wins by plain overwrite during collection — for every attribute
list that collects successfully, every recognized stored attribute
(`name`, `value`, `api` and the `type` marker) ultimately holds its last
occurrence's text, wherever the duplicates appear and whatever attributes
follow them (`alias`/`comment` are ignored and store nothing). -/
theorem claim_C8 (l : List (String × String)) (st : AttrState)
    (h : collectAttrs l = Except.ok st) :
    st.name = lastAttr "name" l ∧
    st.value = lastAttr "value" l ∧
    st.api = lastAttr "api" l ∧
    st.is_ull = (match lastAttr "type" l with
                 | some v => decide (v = "ull")
                 | none => false) := by
  obtain ⟨hn, hv, ha, hu⟩ := collectAttrsFrom_char l initAttrState st h
  refine ⟨?_, ?_, ?_, hu⟩
  · rw [hn]
    cases lastAttr "name" l <;> rfl
  · rw [hv]
    cases lastAttr "value" l <;> rfl
  · rw [ha]
    cases lastAttr "api" l <;> rfl

/-- Witness for amended C8: duplicated `value` key with the later
occurrence in the middle of the list, followed by further attributes. -/
theorem claim_C8_w :
    (some "GL_A" : Option String) = lastAttr "name"
      [("value", "1"), ("name", "GL_A"), ("value", "2"), ("comment", "c")] ∧
    (some "2" : Option String) = lastAttr "value"
      [("value", "1"), ("name", "GL_A"), ("value", "2"), ("comment", "c")] ∧
    (none : Option String) = lastAttr "api"
      [("value", "1"), ("name", "GL_A"), ("value", "2"), ("comment", "c")] ∧
    false = (match lastAttr "type"
      [("value", "1"), ("name", "GL_A"), ("value", "2"), ("comment", "c")] with
      | some v => decide (v = "ull")
      | none => false) :=
  claim_C8 [("value", "1"), ("name", "GL_A"), ("value", "2"), ("comment", "c")]
    { name := some "GL_A", value := some "2", api := none, is_ull := false }
    (by rfl)

/-- Claim C3: raw text that is not wide-marked, contains no `x`/`X` and
contains a minus sign is parsed by `i32::from_str_radix` with radix 16
(base 16, exactly as the source does) and the two's-complement bit
pattern is reinterpreted as unsigned 32-bit, wrapped as `Bitmask` under
the bitmask flag and `Enum` otherwise. -/
theorem claim_C3 (value : String) (b : Bool) (i : Int)
    (hx : strContainsChar value 'x' = false)
    (hX : strContainsChar value 'X' = false)
    (hm : strContainsChar value '-' = true)
    (hp : fromStrRadixI32 16 value = some i) :
    resolveValue value false b =
      Except.ok (if b then EnumValue.Bitmask (i32AsU32 i)
        else EnumValue.Enum (i32AsU32 i)) := by
  simp [resolveValue, hx, hX, hm, hp]

/-- Witness for C3: the text `-1` resolves (via base-16 signed parse and
two's-complement reinterpretation) to bit pattern `0xFFFFFFFF`. -/
theorem claim_C3_w :
    resolveValue "-1" false true = Except.ok (EnumValue.Bitmask 4294967295) := by
  have h := claim_C3 "-1" true (-1) (by rfl) (by rfl) (by rfl) (by rfl)
  have e : i32AsU32 (-1) = 4294967295 := by decide
  rw [e] at h
  simpa using h

/-- Claim C4: text of the form `0x` followed by hex digits, without the
wide marker, resolves to the 32-bit value of those digits in base 16,
wrapped as `Bitmask` when the scope's bitmask flag is set and as `Enum`
otherwise. -/
theorem claim_C4 (value : String) (ds : List Char) (b : Bool) (n : Nat)
    (hdata : value.data = '0' :: 'x' :: ds)
    (hp : parseDigits 16 ds = some n)
    (hn : n < 2 ^ 32) :
    resolveValue value false b =
      Except.ok (if b then EnumValue.Bitmask n else EnumValue.Enum n) := by
  have hcx : strContainsChar value 'x' = true := by
    rw [strContainsChar, hdata, listContainsChar_cons, if_neg (by decide),
      listContainsChar_cons, if_pos rfl]
  have hdrop : strDrop2 value = some (String.mk ds) := by
    simp only [strDrop2, hdata]
    rw [if_neg (by simp)]
    rfl
  have hsp : stripPlus ds = ds := by
    cases ds with
    | nil => rfl
    | cons c t =>
      by_cases hc : c = '+'
      · subst hc
        rw [show parseDigits 16 ('+' :: t) = none from rfl] at hp
        exact Option.noConfusion hp
      · simp [stripPlus, hc]
  have hu : fromStrRadixU 32 16 (String.mk ds) = some n := by
    simp only [fromStrRadixU, show (String.mk ds).data = ds from rfl, hsp, hp]
    rw [if_pos hn]
  simp [resolveValue, hcx, hdrop, hu]

/-- Witness for C4: `0x1F` under the bitmask flag resolves to
`Bitmask 31`. -/
theorem claim_C4_w :
    resolveValue "0x1F" false true = Except.ok (EnumValue.Bitmask 31) := by
  have h := claim_C4 "0x1F" ['1', 'F'] true 31 (by rfl) (by rfl) (by decide)
  simpa using h

/-- Unfolding of `resolveValue` for entries without the wide marker. -/
theorem resolveValue_false_ull (value : String) (b : Bool) :
    resolveValue value false b =
      (if strContainsChar value 'x' || strContainsChar value 'X' then
        match strDrop2 value with
        | none => Except.error (PullError.sliceOutOfBounds value)
        | some rest =>
          match fromStrRadixU 32 16 rest with
          | some n =>
            Except.ok (if b then EnumValue.Bitmask n else EnumValue.Enum n)
          | none => Except.error (PullError.malformedNumber value)
      else if strContainsChar value '-' then
        match fromStrRadixI32 16 value with
        | some i =>
          Except.ok (if b then EnumValue.Bitmask (i32AsU32 i)
            else EnumValue.Enum (i32AsU32 i))
        | none => Except.error (PullError.malformedNumber value)
      else
        match fromStrRadixU 32 10 value with
        | some n =>
          Except.ok (if b then EnumValue.Bitmask n else EnumValue.Enum n)
        | none => Except.error (PullError.malformedNumber value)) := rfl

/-- Claim C10: value equality used by the conflict check is
variant-sensitive — `Enum n` and `Bitmask n` never compare equal; the
same raw text resolved under the opposite bitmask flag yields the same
payload under the other variant; and re-declaring a key stored as
`Enum n` with an entry resolving to `Bitmask n` is a conflicting
redefinition, not an idempotent skip. -/
theorem claim_C10 :
    (∀ n : Nat, EnumValue.Enum n ≠ EnumValue.Bitmask n) ∧
    (∀ (value : String) (n : Nat),
      resolveValue value false false = Except.ok (EnumValue.Enum n) →
      resolveValue value false true = Except.ok (EnumValue.Bitmask n)) ∧
    (∀ (attrs : List (String × String)) (e : Enums) (gr : Option EnumGroup)
      (k : EnumKey) (n : Nat),
      resolveEntry attrs true = Except.ok (k, EnumValue.Bitmask n) →
      Enums.find? e k = some (EnumValue.Enum n) →
      processEnum attrs true e gr =
        Except.error (PullError.conflictingRedefinition k
          (EnumValue.Enum n) (EnumValue.Bitmask n))) := by
  refine ⟨?_, ?_, ?_⟩
  · intro n h
    exact EnumValue.noConfusion h
  · intro value n h
    rw [resolveValue_false_ull] at h ⊢
    by_cases hcx : (strContainsChar value 'x' || strContainsChar value 'X') = true
    · rw [if_pos hcx] at h ⊢
      cases hd : strDrop2 value with
      | none =>
        simp only [hd] at h
        exact Except.noConfusion h
      | some rest =>
        simp only [hd] at h ⊢
        cases hu : fromStrRadixU 32 16 rest with
        | none =>
          simp only [hu] at h
          exact Except.noConfusion h
        | some m =>
          simp only [hu] at h ⊢
          injection h with h2
          rw [if_neg Bool.false_ne_true] at h2
          injection h2 with h3
          subst h3
          simp
    · rw [if_neg hcx] at h ⊢
      by_cases hm : strContainsChar value '-' = true
      · rw [if_pos hm] at h ⊢
        cases hi : fromStrRadixI32 16 value with
        | none =>
          simp only [hi] at h
          exact Except.noConfusion h
        | some i =>
          simp only [hi] at h ⊢
          injection h with h2
          rw [if_neg Bool.false_ne_true] at h2
          injection h2 with h3
          subst h3
          simp
      · rw [if_neg hm] at h ⊢
        cases hu : fromStrRadixU 32 10 value with
        | none =>
          simp only [hu] at h
          exact Except.noConfusion h
        | some m =>
          simp only [hu] at h ⊢
          injection h with h2
          rw [if_neg Bool.false_ne_true] at h2
          injection h2 with h3
          subst h3
          simp
  · intro attrs e gr k n hres hold
    simp only [processEnum, hres, hold]
    rw [if_neg (fun hcon => EnumValue.noConfusion hcon)]

/-- Witness for C10: the decimal text `4` resolves to `Bitmask 4` under
the bitmask flag, and re-declaring a key stored as `Enum 4` with it is a
conflicting redefinition. -/
theorem claim_C10_w :
    resolveValue "4" false true = Except.ok (EnumValue.Bitmask 4) ∧
    processEnum [("name", "GL_K"), ("value", "4")] true
        [({ name := "GL_K", api := none }, EnumValue.Enum 4)] none =
      Except.error (PullError.conflictingRedefinition
        { name := "GL_K", api := none } (EnumValue.Enum 4)
        (EnumValue.Bitmask 4)) :=
  ⟨claim_C10.2.1 "4" 4 (by rfl),
   claim_C10.2.2 [("name", "GL_K"), ("value", "4")]
     [({ name := "GL_K", api := none }, EnumValue.Enum 4)] none
     { name := "GL_K", api := none } 4 (by rfl) (by rfl)⟩

/-- Membership after a set insertion. -/
theorem mem_enumGroupInsert (g : EnumGroup) (s x : String) :
    x ∈ enumGroupInsert g s ↔ x = s ∨ x ∈ g := by
  unfold enumGroupInsert
  by_cases h : s ∈ g
  · rw [if_pos h]
    constructor
    · exact Or.inr
    · intro hx
      cases hx with
      | inl he => rw [he]; exact h
      | inr hg => exact hg
  · rw [if_neg h]
    exact List.mem_cons

/-- A successful `processEnum` is either an idempotent skip of an
already-present identical binding or the insertion of a fresh key (with
its name added to a supplied group). -/
theorem processEnum_ok_cases (attrs : List (String × String)) (b : Bool)
    (e : Enums) (gr : Option EnumGroup) (e2 : Enums)
    (gr2 : Option EnumGroup)
    (h : processEnum attrs b e gr = Except.ok (e2, gr2)) :
    ∃ k v, resolveEntry attrs b = Except.ok (k, v) ∧
      ((Enums.find? e k = some v ∧ e2 = e ∧ gr2 = gr) ∨
       (Enums.find? e k = none ∧ e2 = (k, v) :: e ∧
        gr2 = Option.map (fun g => enumGroupInsert g k.name) gr)) := by
  cases hre : resolveEntry attrs b with
  | error err =>
    simp only [processEnum, hre] at h
    exact Except.noConfusion h
  | ok kv =>
    obtain ⟨k, v⟩ := kv
    simp only [processEnum, hre] at h
    refine ⟨k, v, rfl, ?_⟩
    cases hf : Enums.find? e k with
    | some old =>
      simp only [hf] at h
      by_cases hov : old = v
      · rw [if_pos hov] at h
        injection h with h2
        injection h2 with h3 h4
        exact Or.inl ⟨by rw [hov], h3.symm, h4.symm⟩
      · rw [if_neg hov] at h
        exact Except.noConfusion h
    | none =>
      simp only [hf] at h
      injection h with h2
      injection h2 with h3 h4
      exact Or.inr ⟨rfl, h3.symm, h4.symm⟩

/-- The fold only ever adds fresh keys: any binding present in the table
before a successful fold is still present, unchanged, afterwards. -/
theorem pull_mono (b : Bool) (events : List XmlEvent) :
    ∀ (e : Enums) (gr : Option EnumGroup) (out : Enums)
      (grOut : Option EnumGroup),
      pull_enums events e b gr = Except.ok (out, grOut) →
      ∀ (k : EnumKey) (v : EnumValue),
        Enums.find? e k = some v → Enums.find? out k = some v := by
  induction events with
  | nil =>
    intro e gr out grOut h
    rw [pull_enums_nil] at h
    exact Except.noConfusion h
  | cons ev rest ih =>
    intro e gr out grOut h k v hfind
    cases ev with
    | EndTag n =>
      rw [pull_enums_endTag] at h
      by_cases hn : n = "enums"
      · rw [if_pos hn] at h
        injection h with h2
        injection h2 with h3 h4
        rw [← h3]
        exact hfind
      · rw [if_neg hn] at h
        exact Except.noConfusion h
    | EmptyTag n attrs =>
      rw [pull_enums_emptyTag] at h
      by_cases hn : n = "enum"
      · rw [if_pos hn] at h
        cases hpe : processEnum attrs b e gr with
        | error err =>
          simp only [hpe] at h
          exact Except.noConfusion h
        | ok p =>
          obtain ⟨e1, g1⟩ := p
          simp only [hpe] at h
          obtain ⟨k0, v0, hre, hcase⟩ :=
            processEnum_ok_cases attrs b e gr e1 g1 hpe
          cases hcase with
          | inl hskip =>
            obtain ⟨hfv, he1, hg1⟩ := hskip
            rw [he1] at h
            exact ih e g1 out grOut h k v hfind
          | inr hins =>
            obtain ⟨hfresh, he1, hg1⟩ := hins
            rw [he1] at h
            have hkne : ¬ (k = k0) := by
              intro hk
              rw [hk, hfresh] at hfind
              exact Option.noConfusion hfind
            refine ih ((k0, v0) :: e) g1 out grOut h k v ?_
            rw [find?_cons, if_neg hkne]
            exact hfind
      · rw [if_neg hn] at h
        by_cases hu : n = "unused"
        · rw [if_pos hu] at h
          exact ih e gr out grOut h k v hfind
        · rw [if_neg hu] at h
          exact Except.noConfusion h
    | StartTag n attrs =>
      rw [pull_enums_startTag] at h
      exact Except.noConfusion h

/-- Characterization of the group accumulator across a successful fold:
a name is in the final group iff it was there at the start or it is the
name of a key that the fold newly added to the table. -/
theorem pull_group_char (b : Bool) (events : List XmlEvent) :
    ∀ (e : Enums) (g : EnumGroup) (out : Enums) (gOut : EnumGroup),
      pull_enums events e b (some g) = Except.ok (out, some gOut) →
      ∀ s : String,
        (s ∈ gOut ↔ s ∈ g ∨ ∃ k : EnumKey,
          (∃ v, Enums.find? out k = some v) ∧
          Enums.find? e k = none ∧ k.name = s) := by
  induction events with
  | nil =>
    intro e g out gOut h
    rw [pull_enums_nil] at h
    exact Except.noConfusion h
  | cons ev rest ih =>
    intro e g out gOut h s
    cases ev with
    | EndTag n =>
      rw [pull_enums_endTag] at h
      by_cases hn : n = "enums"
      · rw [if_pos hn] at h
        injection h with h2
        injection h2 with h3 h4
        injection h4 with h5
        subst h3
        subst h5
        constructor
        · exact Or.inl
        · intro hor
          cases hor with
          | inl hg => exact hg
          | inr hex =>
            obtain ⟨kk, ⟨v, hvo⟩, hvn, _⟩ := hex
            rw [hvo] at hvn
            exact Option.noConfusion hvn
      · rw [if_neg hn] at h
        exact Except.noConfusion h
    | EmptyTag n attrs =>
      rw [pull_enums_emptyTag] at h
      by_cases hn : n = "enum"
      · rw [if_pos hn] at h
        cases hpe : processEnum attrs b e (some g) with
        | error err =>
          simp only [hpe] at h
          exact Except.noConfusion h
        | ok p =>
          obtain ⟨e1, g1⟩ := p
          simp only [hpe] at h
          obtain ⟨k0, v0, hre, hcase⟩ :=
            processEnum_ok_cases attrs b e (some g) e1 g1 hpe
          cases hcase with
          | inl hskip =>
            obtain ⟨hfv, he1, hg1⟩ := hskip
            rw [he1, hg1] at h
            exact ih e g out gOut h s
          | inr hins =>
            obtain ⟨hfresh, he1, hg1⟩ := hins
            rw [he1, hg1] at h
            rw [show Option.map (fun g2 => enumGroupInsert g2 k0.name)
              (some g) = some (enumGroupInsert g k0.name) from rfl] at h
            have hiff := ih ((k0, v0) :: e) (enumGroupInsert g k0.name)
              out gOut h s
            rw [hiff, mem_enumGroupInsert]
            constructor
            · intro hor
              rcases hor with (hks | hg2) | ⟨kk, hvo, hvn, hkn⟩
              · right
                refine ⟨k0, ?_, hfresh, hks.symm⟩
                refine ⟨v0, pull_mono b rest ((k0, v0) :: e)
                  (some (enumGroupInsert g k0.name)) out (some gOut)
                  h k0 v0 ?_⟩
                rw [find?_cons, if_pos rfl]
              · exact Or.inl hg2
              · right
                refine ⟨kk, hvo, ?_, hkn⟩
                rw [find?_cons] at hvn
                by_cases hkk : kk = k0
                · rw [if_pos hkk] at hvn
                  exact Option.noConfusion hvn
                · rw [if_neg hkk] at hvn
                  exact hvn
            · intro hor
              rcases hor with hg2 | ⟨kk, hvo, hvn, hkn⟩
              · exact Or.inl (Or.inr hg2)
              · by_cases hkk : kk = k0
                · left
                  left
                  rw [← hkn, hkk]
                · right
                  refine ⟨kk, hvo, ?_, hkn⟩
                  rw [find?_cons, if_neg hkk]
                  exact hvn
      · rw [if_neg hn] at h
        by_cases hu : n = "unused"
        · rw [if_pos hu] at h
          exact ih e g out gOut h s
        · rw [if_neg hu] at h
          exact Except.noConfusion h
    | StartTag n attrs =>
      rw [pull_enums_startTag] at h
      exact Except.noConfusion h

/-- Claim C5: with a group accumulator supplied and initially empty, a
successful scope fold leaves in the accumulator exactly the names of the
keys it newly added to the table (with every entry key absent beforehand,
these are exactly the scope's entry names); and processing an entry whose
key is already present never adds to the accumulator — it is either an
idempotent skip returning the group untouched, or a conflicting
redefinition error through which no updated group escapes. -/
theorem claim_C5 :
    (∀ (events : List XmlEvent) (b : Bool) (e : Enums) (out : Enums)
      (gOut : EnumGroup),
      pull_enums events e b (some []) = Except.ok (out, some gOut) →
      ∀ s : String,
        (s ∈ gOut ↔ ∃ k : EnumKey,
          (∃ v, Enums.find? out k = some v) ∧
          Enums.find? e k = none ∧ k.name = s)) ∧
    (∀ (attrs : List (String × String)) (b : Bool) (e : Enums)
      (g : EnumGroup) (k : EnumKey) (v old : EnumValue),
      resolveEntry attrs b = Except.ok (k, v) →
      Enums.find? e k = some old →
      processEnum attrs b e (some g) = Except.ok (e, some g) ∨
      processEnum attrs b e (some g) =
        Except.error (PullError.conflictingRedefinition k old v)) := by
  constructor
  · intro events b e out gOut h s
    rw [pull_group_char b events e [] out gOut h s]
    simp
  · intro attrs b e g k v old hres hold
    by_cases hov : old = v
    · left
      subst hov
      simp [processEnum, hres, hold]
    · right
      simp [processEnum, hres, hold, hov]

/-- Witness for C5: a one-entry scope starting from the empty table puts
exactly that entry's name in the group, and an identical re-declaration
against a populated table returns the group unchanged. -/
theorem claim_C5_w :
    (("GL_A" ∈ (["GL_A"] : EnumGroup)) ↔ ∃ k : EnumKey,
      (∃ v, Enums.find?
        [({ name := "GL_A", api := none }, EnumValue.Enum 1)] k = some v) ∧
      Enums.find? ([] : Enums) k = none ∧ k.name = "GL_A") ∧
    (processEnum [("name", "GL_C"), ("value", "7")] false
        [({ name := "GL_C", api := none }, EnumValue.Enum 7)] (some []) =
        Except.ok ([({ name := "GL_C", api := none }, EnumValue.Enum 7)],
          some []) ∨
     processEnum [("name", "GL_C"), ("value", "7")] false
        [({ name := "GL_C", api := none }, EnumValue.Enum 7)] (some []) =
        Except.error (PullError.conflictingRedefinition
          { name := "GL_C", api := none } (EnumValue.Enum 7)
          (EnumValue.Enum 7))) :=
  ⟨claim_C5.1
    [XmlEvent.EmptyTag "enum" [("name", "GL_A"), ("value", "1")],
      XmlEvent.EndTag "enums"]
    false [] [({ name := "GL_A", api := none }, EnumValue.Enum 1)] ["GL_A"]
    (by rfl) "GL_A",
   claim_C5.2 [("name", "GL_C"), ("value", "7")] false
    [({ name := "GL_C", api := none }, EnumValue.Enum 7)] []
    { name := "GL_C", api := none } (EnumValue.Enum 7) (EnumValue.Enum 7)
    (by rfl) (by rfl)⟩
